import Mathlib

/-!
Verification of the text-processing pipeline of the blog repository
(`src/app.py` and `src/whitepaper/exporters.py`).

Strings are modelled as `List Char` (Unicode scalar values), byte strings as
`List Nat` (each entry `< 256`).  Python operations that can raise are
modelled with `Except`; a bare `except:` in the source corresponds to a
`match` on the `Except` value.  External collaborators (the `chardet`
library, the generative-AI translation endpoint) are modelled as oracle
parameters.
-/

namespace Blog

/-- Model of Python `str.isspace` / the `re` module's `\s` class for `str`
patterns.  The two classes coincide: both match exactly
`\t \n \v \f \r \x1c-\x1f space \x85 \xa0    -
    　`. -/
def pyIsSpace (c : Char) : Bool :=
  let n := c.toNat
  n == 0x20 || (0x9 ≤ n && n ≤ 0xD) || (0x1C ≤ n && n ≤ 0x1F) ||
  n == 0x85 || n == 0xA0 || n == 0x1680 ||
  (0x2000 ≤ n && n ≤ 0x200A) || n == 0x2028 || n == 0x2029 ||
  n == 0x202F || n == 0x205F || n == 0x3000

/-- Model of Python `str.isprintable` (true unless the character is in a
`C*` or `Z*` Unicode category other than the ASCII space).  The definition
is exact on the code-point ranges exercised by the pipeline (ASCII, the C1
controls, the Latin-1 supplement, general punctuation, Devanagari,
`U+FFFD`); in unassigned gaps of other ranges it approximates by `true`. -/
def pyIsPrintable (c : Char) : Bool :=
  let n := c.toNat
  if n < 0x20 then false            -- C0 controls
  else if n ≤ 0x7E then true        -- printable ASCII
  else if n ≤ 0x9F then false       -- DEL and C1 controls
  else if n == 0xA0 then false      -- no-break space (Zs)
  else if n == 0xAD then false      -- soft hyphen (Cf)
  else if n < 0x2000 then true
  else if n ≤ 0x200F then false     -- typographic spaces (Zs) and Cf marks
  else if n ≤ 0x2027 then true
  else if n ≤ 0x202E then false     -- Zl, Zp and bidi Cf marks
  else if n ≤ 0x205E then true
  else if n ≤ 0x206F then false     -- Zs and invisible Cf operators
  else true

/-- Model of the `re` module's `\w` class for `str` patterns
(alphanumeric characters and the underscore).  Exact on the ranges the
pipeline exercises: ASCII, the Latin-1 supplement, Greek, Devanagari
(whose combining vowel signs are *not* word characters), basic CJK. -/
def pyIsWordChar (c : Char) : Bool :=
  let n := c.toNat
  (0x30 ≤ n && n ≤ 0x39) || (0x41 ≤ n && n ≤ 0x5A) ||
  (0x61 ≤ n && n ≤ 0x7A) || n == 0x5F ||
  n == 0xAA || n == 0xB5 || n == 0xBA ||
  (0xC0 ≤ n && n ≤ 0xFF && n != 0xD7 && n != 0xF7) ||
  (0x100 ≤ n && n ≤ 0x2C1) ||
  (0x386 ≤ n && n ≤ 0x3A9 && n != 0x387 && n != 0x3A2) ||
  (0x3B1 ≤ n && n ≤ 0x3C9) ||
  (0x904 ≤ n && n ≤ 0x939) || n == 0x93D || n == 0x950 ||
  (0x958 ≤ n && n ≤ 0x961) || (0x966 ≤ n && n ≤ 0x96F) ||
  (0x971 ≤ n && n ≤ 0x97F) ||
  (0x4E00 ≤ n && n ≤ 0x9FFF)

/-- Fuel-driven worker for `strReplace`; the fuel starts at the length of
the subject string, which bounds the number of recursion steps. -/
def strReplaceAux (old new : List Char) : Nat → List Char → List Char
  | _, [] => []
  | 0, s => s
  | fuel + 1, c :: cs =>
    if old.isPrefixOf (c :: cs) then
      new ++ strReplaceAux old new fuel (List.drop (old.length - 1) cs)
    else
      c :: strReplaceAux old new fuel cs

/-- Model of Python `str.replace(old, new)`: left-to-right,
non-overlapping replacement of every occurrence.  All patterns used by the
repository are non-empty; the empty-pattern case (where Python would
insert `new` at every position) is not exercised and is modelled as the
identity. -/
def strReplace (old new s : List Char) : List Char :=
  if old.isEmpty then s else strReplaceAux old new s.length s

/-- Substring test (Python's `pat in s` for strings). -/
def containsSub (pat : List Char) : List Char → Bool
  | [] => pat.isEmpty
  | c :: cs => pat.isPrefixOf (c :: cs) || containsSub pat cs

/-- Model of `re.sub(r'\s+', ' ', s)`: every maximal run of whitespace
characters becomes a single ASCII space. -/
def collapseWS : List Char → List Char
  | [] => []
  | [c] => if pyIsSpace c then [' '] else [c]
  | c :: c2 :: cs =>
    if pyIsSpace c then
      if pyIsSpace c2 then collapseWS (c2 :: cs)
      else ' ' :: collapseWS (c2 :: cs)
    else c :: collapseWS (c2 :: cs)

/-- Model of Python `str.strip()`: remove leading and trailing whitespace. -/
def pyStrip (s : List Char) : List Char :=
  ((s.dropWhile pyIsSpace).reverse.dropWhile pyIsSpace).reverse

/-- Helper for `normNewlinesAux`: given the text following a `'\n'`,
return the remainder after the last `'\n'` reachable through whitespace —
i.e. the continuation point of a greedy `\n\s*\n` match — or `none` when
the whitespace run contains no further newline. -/
def afterLastNL : List Char → Option (List Char)
  | [] => none
  | c :: cs =>
    if c = '\n' then some ((afterLastNL cs).getD cs)
    else if pyIsSpace c then afterLastNL cs
    else none

/-- Fuel-driven worker for `normNewlines`. -/
def normNewlinesAux : Nat → List Char → List Char
  | _, [] => []
  | 0, s => s
  | fuel + 1, c :: cs =>
    if c = '\n' then
      match afterLastNL cs with
      | some rest => '\n' :: '\n' :: normNewlinesAux fuel rest
      | none => c :: normNewlinesAux fuel cs
    else c :: normNewlinesAux fuel cs

/-- Model of `re.sub(r'\n\s*\n', '\n\n', s)`: each greedy match of a
newline, whitespace, newline sequence is replaced by exactly two newlines,
scanning left to right without rescanning replacements. -/
def normNewlines (s : List Char) : List Char :=
  normNewlinesAux s.length s

/-- The character filter of `normalize_text` (src/app.py line 925): keep a
character when it is printable or is a newline or tab. -/
def keepChar (c : Char) : Bool :=
  pyIsPrintable c || c = '\n' || c = '\t'

/-- The six sequential `str.replace` artifact fixes of `normalize_text`
(src/app.py lines 930-939), in source order:
`'â€™'→"'"`, `'â€œ'→'"'`, `'â€'→'"'`, `'Â'→''`, `'degü'→'deg'`,
`'(c)'→'©'`.  Quote characters are written via their code points. -/
def artifactSteps : List (List Char × List Char) :=
  [ (['â', '€', '™'], [Char.ofNat 0x27]),
    (['â', '€', 'œ'], [Char.ofNat 0x22]),
    (['â', '€'], [Char.ofNat 0x22]),
    (['Â'], []),
    (['d', 'e', 'g', 'ü'], ['d', 'e', 'g']),
    ([Char.ofNat 0x28, 'c', Char.ofNat 0x29], ['©']) ]

/-- Model of `normalize_text` (src/app.py lines 922-942): strip
non-printable characters (keeping `\n`, `\t`), collapse whitespace runs to
single spaces, apply the six artifact fixes, collapse whitespace again,
normalize blank-line runs, and trim. -/
def normalize_text (s : List Char) : List Char :=
  let s1 := s.filter keepChar
  let s2 := collapseWS s1
  let s3 := artifactSteps.foldl (fun t p => strReplace p.1 p.2 t) s2
  let s4 := collapseWS s3
  let s5 := normNewlines s4
  pyStrip s5

/-! ## The decode chain (`decode_indic_text`, src/app.py lines 787-920) -/

/-- The `replacements` dict of `decode_indic_text` (src/app.py lines
790-860) in its effective form: Python keeps dict-literal duplicate keys at
their first position with their last value; every duplicated key in the
source carries the same value both times, so the table below is the
insertion-ordered, de-duplicated dict. -/
def replacements : List (List Char × List Char) :=
  [ (['(', 'R', ')'], ['र']),
    (['+', '/', '-'], ['ल']),
    (['É'], ['ा']),
    (['è'], ['ै']),
    (['ú'], ['र']),
    (['ù'], ['द']),
    (['þ'], ['ह']),
    (['ò'], ['क']),
    (['ä'], ['े']),
    (['æ'], ['ो']),
    (['Î'], ['ि']),
    (['õ'], ['ट']),
    (['¨'], ['म']),
    (['½'], ['ह']),
    (['Ê'], ['ि']),
    (['º'], ['स']),
    (['Æ'], ['ं']),
    (['Ç'], ['च']),
    (['ª'], ['य']),
    (['¦'], ['भ']),
    (['P'], ['श']),
    (['ÿ'], ['ह']),
    (['Ò'], ['ी']),
    (['Ó'], ['ी']),
    (['Ô'], ['ी']),
    (['Õ'], ['ी']),
    (['Ö'], ['ी']),
    (['×'], ['ी']),
    (['Ø'], ['ी']),
    (['Ù'], ['ी']),
    (['Ú'], ['ी']),
    (['Û'], ['ी']),
    (['Ü'], ['ी']),
    (['Ý'], ['ी']),
    (['Þ'], ['ी']),
    (['ß'], ['ी']),
    (['à'], ['ी']),
    (['á'], ['ी']),
    (['â'], ['ी']),
    (['ã'], ['ी']),
    (['å'], ['े']),
    (['ç'], ['ो']),
    (['é'], ['ै']),
    (['ê'], ['ै']),
    (['ë'], ['ै']),
    (['ì'], ['ै']),
    (['í'], ['ै']),
    (['î'], ['ै']),
    (['ï'], ['ै']),
    (['ð'], ['ै']),
    (['ñ'], ['ै']),
    (['ó'], ['क']),
    (['ô'], ['क']),
    (['ö'], ['ट']),
    (['÷'], ['ट']),
    (['ø'], ['ट']),
    (['û'], ['र']),
    (['ü'], ['र']),
    (['ý'], ['र']) ]

/-- The `indic_markers` list (src/app.py line 863). -/
def indic_markers : List Char :=
  ['É', 'ú', 'ù', 'þ', 'ò', 'ä', 'æ', 'Î', 'õ']

/-- `is_indic` (src/app.py line 864): a marker occurs in the text as a
substring (each marker is a one-character string). -/
def is_indic (s : List Char) : Bool :=
  indic_markers.any (fun m => containsSub [m] s)

/-- The sequential application of all entries of `replacements`
(src/app.py lines 867-869). -/
def applyReplacements (s : List Char) : List Char :=
  replacements.foldl (fun t p => strReplace p.1 p.2 t) s

/-- The conditional substitution step of `decode_indic_text` (src/app.py
lines 862-869), called `repair` by the specification: the replacement
table engages only when `is_indic` holds. -/
def repair (s : List Char) : List Char :=
  if is_indic s then applyReplacements s else s

/-- UTF-8 encoding of one Unicode scalar value. -/
def utf8EncodeChar (c : Char) : List Nat :=
  let n := c.toNat
  if n < 0x80 then [n]
  else if n < 0x800 then [0xC0 + n / 64, 0x80 + n % 64]
  else if n < 0x10000 then
    [0xE0 + n / 4096, 0x80 + (n / 64) % 64, 0x80 + n % 64]
  else
    [0xF0 + n / 262144, 0x80 + (n / 4096) % 64, 0x80 + (n / 64) % 64,
     0x80 + n % 64]

/-- Model of `str.encode('utf-8', errors='ignore')`.  Lean's `Char` only
holds Unicode scalar values, so no character is ever dropped. -/
def utf8Encode (s : List Char) : List Nat :=
  s.flatMap utf8EncodeChar

/-- One strict UTF-8 decoding step: parse the first scalar value, return
it with the remaining bytes, or fail on any malformed prefix (overlongs,
surrogates and values beyond `U+10FFFF` are rejected, as in Python's
strict decoder). -/
def utf8Step : List Nat → Except Unit (Nat × List Nat)
  | [] => .error ()
  | b :: bs =>
    if b < 0x80 then .ok (b, bs)
    else if 0xC2 ≤ b && b ≤ 0xDF then
      match bs with
      | b2 :: bs2 =>
        if 0x80 ≤ b2 && b2 ≤ 0xBF then
          .ok ((b - 0xC0) * 64 + (b2 - 0x80), bs2)
        else .error ()
      | _ => .error ()
    else if 0xE0 ≤ b && b ≤ 0xEF then
      match bs with
      | b2 :: b3 :: bs3 =>
        let lo2 := if b == 0xE0 then 0xA0 else 0x80
        let hi2 := if b == 0xED then 0x9F else 0xBF
        if lo2 ≤ b2 && b2 ≤ hi2 && 0x80 ≤ b3 && b3 ≤ 0xBF then
          .ok ((b - 0xE0) * 4096 + (b2 - 0x80) * 64 + (b3 - 0x80), bs3)
        else .error ()
      | _ => .error ()
    else if 0xF0 ≤ b && b ≤ 0xF4 then
      match bs with
      | b2 :: b3 :: b4 :: bs4 =>
        let lo2 := if b == 0xF0 then 0x90 else 0x80
        let hi2 := if b == 0xF4 then 0x8F else 0xBF
        if lo2 ≤ b2 && b2 ≤ hi2 && 0x80 ≤ b3 && b3 ≤ 0xBF &&
            0x80 ≤ b4 && b4 ≤ 0xBF then
          .ok ((b - 0xF0) * 262144 + (b2 - 0x80) * 4096 + (b3 - 0x80) * 64 +
            (b4 - 0x80), bs4)
        else .error ()
      | _ => .error ()
    else .error ()

/-- Fuel-driven worker for the strict UTF-8 decoder. -/
def utf8DecodeAux : Nat → List Nat → Except Unit (List Char)
  | _, [] => .ok []
  | 0, _ => .error ()
  | fuel + 1, bs =>
    match utf8Step bs with
    | .error _ => .error ()
    | .ok (n, rest) =>
      match utf8DecodeAux fuel rest with
      | .error _ => .error ()
      | .ok cs => .ok (Char.ofNat n :: cs)

/-- Model of `bytes.decode('utf-8')` (strict). -/
def utf8Decode (bs : List Nat) : Except Unit (List Char) :=
  utf8DecodeAux bs.length bs

/-- Number of leading bytes of `bs` that are valid continuations of an
ill-fated multi-byte sequence started by `b` (used to skip the maximal
subpart on decoding errors, as CPython's `errors='replace'` handler
does). -/
def utf8BadSkip (b : Nat) (bs : List Nat) : Nat :=
  if 0xC2 ≤ b && b ≤ 0xDF then 0
  else if 0xE0 ≤ b && b ≤ 0xEF then
    match bs with
    | b2 :: _ =>
      let lo2 := if b == 0xE0 then 0xA0 else 0x80
      let hi2 := if b == 0xED then 0x9F else 0xBF
      if lo2 ≤ b2 && b2 ≤ hi2 then 1 else 0
    | _ => 0
  else if 0xF0 ≤ b && b ≤ 0xF4 then
    match bs with
    | b2 :: b3 :: _ =>
      let lo2 := if b == 0xF0 then 0x90 else 0x80
      let hi2 := if b == 0xF4 then 0x8F else 0xBF
      if lo2 ≤ b2 && b2 ≤ hi2 then
        if 0x80 ≤ b3 && b3 ≤ 0xBF then 2 else 1
      else 0
    | [b2] =>
      let lo2 := if b == 0xF0 then 0x90 else 0x80
      let hi2 := if b == 0xF4 then 0x8F else 0xBF
      if lo2 ≤ b2 && b2 ≤ hi2 then 1 else 0
    | _ => 0
  else 0

/-- Fuel-driven worker for the lossy UTF-8 decoder: on a malformed prefix
emit one `U+FFFD` and resume after the maximal subpart. -/
def utf8ReplaceAux : Nat → List Nat → List Char
  | _, [] => []
  | 0, _ => []
  | fuel + 1, b :: bs =>
    match utf8Step (b :: bs) with
    | .ok (n, rest) => Char.ofNat n :: utf8ReplaceAux fuel rest
    | .error _ =>
      Char.ofNat 0xFFFD :: utf8ReplaceAux fuel (List.drop (utf8BadSkip b bs) bs)

/-- Model of `bytes.decode('utf-8', errors='replace')`. -/
def utf8DecodeReplace (bs : List Nat) : List Char :=
  utf8ReplaceAux bs.length bs

/-- Model of `bytes.decode('iso-8859-1')` (also Python's `latin1` and
`latin_1` aliases): every byte maps to the code point of the same value,
so the decode is total. -/
def latin1Decode (bs : List Nat) : Except Unit (List Char) :=
  .ok (bs.map Char.ofNat)

/-- Model of `bytes.decode('ascii')`: bytes `< 0x80` only. -/
def asciiDecode (bs : List Nat) : Except Unit (List Char) :=
  if bs.all (fun b => b < 0x80) then .ok (bs.map Char.ofNat) else .error ()

/-- The cp1252 mapping of one byte (also Python's `windows-1252` alias):
identity outside `0x80-0x9F`, the Windows table inside it; the five holes
`0x81, 0x8D, 0x8F, 0x90, 0x9D` are undefined and make the decode fail. -/
def cp1252Byte (b : Nat) : Option Nat :=
  if b < 0x80 || b > 0x9F then some b
  else if b == 0x80 then some 0x20AC
  else if b == 0x82 then some 0x201A
  else if b == 0x83 then some 0x192
  else if b == 0x84 then some 0x201E
  else if b == 0x85 then some 0x2026
  else if b == 0x86 then some 0x2020
  else if b == 0x87 then some 0x2021
  else if b == 0x88 then some 0x2C6
  else if b == 0x89 then some 0x2030
  else if b == 0x8A then some 0x160
  else if b == 0x8B then some 0x2039
  else if b == 0x8C then some 0x152
  else if b == 0x8E then some 0x17D
  else if b == 0x91 then some 0x2018
  else if b == 0x92 then some 0x2019
  else if b == 0x93 then some 0x201C
  else if b == 0x94 then some 0x201D
  else if b == 0x95 then some 0x2022
  else if b == 0x96 then some 0x2013
  else if b == 0x97 then some 0x2014
  else if b == 0x98 then some 0x2DC
  else if b == 0x99 then some 0x2122
  else if b == 0x9A then some 0x161
  else if b == 0x9B then some 0x203A
  else if b == 0x9C then some 0x153
  else if b == 0x9E then some 0x17E
  else if b == 0x9F then some 0x178
  else none

/-- Model of `bytes.decode('cp1252')`. -/
def cp1252Decode (bs : List Nat) : Except Unit (List Char) :=
  match bs.mapM cp1252Byte with
  | some ns => .ok (ns.map Char.ofNat)
  | none => .error ()

/-- Model of `bytes.decode('iso-8859-15')`: latin-1 with eight
repositioned characters. -/
def iso885915Decode (bs : List Nat) : Except Unit (List Char) :=
  .ok (bs.map (fun b =>
    if b == 0xA4 then Char.ofNat 0x20AC
    else if b == 0xA6 then Char.ofNat 0x160
    else if b == 0xA8 then Char.ofNat 0x161
    else if b == 0xB4 then Char.ofNat 0x17D
    else if b == 0xB8 then Char.ofNat 0x17E
    else if b == 0xBC then Char.ofNat 0x152
    else if b == 0xBD then Char.ofNat 0x153
    else if b == 0xBE then Char.ofNat 0x178
    else Char.ofNat b))

/-- The mac-roman code points for bytes `0x80` through `0xFF`. -/
def macRomanHigh : List Nat :=
  [ 0xC4, 0xC5, 0xC7, 0xC9, 0xD1, 0xD6, 0xDC, 0xE1,
    0xE0, 0xE2, 0xE4, 0xE3, 0xE5, 0xE7, 0xE9, 0xE8,
    0xEA, 0xEB, 0xED, 0xEC, 0xEE, 0xEF, 0xF1, 0xF3,
    0xF2, 0xF4, 0xF6, 0xF5, 0xFA, 0xF9, 0xFB, 0xFC,
    0x2020, 0xB0, 0xA2, 0xA3, 0xA7, 0x2022, 0xB6, 0xDF,
    0xAE, 0xA9, 0x2122, 0xB4, 0xA8, 0x2260, 0xC6, 0xD8,
    0x221E, 0xB1, 0x2264, 0x2265, 0xA5, 0xB5, 0x2202, 0x2211,
    0x220F, 0x3C0, 0x222B, 0xAA, 0xBA, 0x3A9, 0xE6, 0xF8,
    0xBF, 0xA1, 0xAC, 0x221A, 0x192, 0x2248, 0x2206, 0xAB,
    0xBB, 0x2026, 0xA0, 0xC0, 0xC3, 0xD5, 0x152, 0x153,
    0x2013, 0x2014, 0x201C, 0x201D, 0x2018, 0x2019, 0xF7, 0x25CA,
    0xFF, 0x178, 0x2044, 0x20AC, 0x2039, 0x203A, 0xFB01, 0xFB02,
    0x2021, 0xB7, 0x201A, 0x201E, 0x2030, 0xC2, 0xCA, 0xC1,
    0xCB, 0xC8, 0xCD, 0xCE, 0xCF, 0xCC, 0xD3, 0xD4,
    0xF8FF, 0xD2, 0xDA, 0xDB, 0xD9, 0x131, 0x2C6, 0x2DC,
    0xAF, 0x2D8, 0x2D9, 0x2DA, 0xB8, 0x2DD, 0x2DB, 0x2C7 ]

/-- Model of `bytes.decode('mac_roman')`: total, table-driven above
`0x7F`. -/
def macRomanDecode (bs : List Nat) : Except Unit (List Char) :=
  .ok (bs.map (fun b =>
    if b < 0x80 then Char.ofNat b
    else Char.ofNat (macRomanHigh.getD (b - 0x80) 0xFFFD)))

/-- Read one 16-bit code unit (little- or big-endian). -/
def unit16 (le : Bool) (b0 b1 : Nat) : Nat :=
  if le then b0 + 256 * b1 else 256 * b0 + b1

/-- Fuel-driven UTF-16 code-unit parser with surrogate pairing; odd tails
and unpaired surrogates fail, as in Python's strict decoder. -/
def utf16Aux (le : Bool) : Nat → List Nat → Except Unit (List Char)
  | _, [] => .ok []
  | 0, _ => .error ()
  | _ + 1, [_] => .error ()
  | fuel + 1, b0 :: b1 :: bs =>
    let u := unit16 le b0 b1
    if u < 0xD800 || 0xE000 ≤ u then
      match utf16Aux le fuel bs with
      | .ok cs => .ok (Char.ofNat u :: cs)
      | .error _ => .error ()
    else if u ≤ 0xDBFF then
      match bs with
      | b2 :: b3 :: bs2 =>
        let u2 := unit16 le b2 b3
        if 0xDC00 ≤ u2 && u2 ≤ 0xDFFF then
          match utf16Aux le fuel bs2 with
          | .ok cs =>
            .ok (Char.ofNat (0x10000 + (u - 0xD800) * 1024 + (u2 - 0xDC00)) :: cs)
          | .error _ => .error ()
        else .error ()
      | _ => .error ()
    else .error ()

/-- Model of `bytes.decode('utf-16')`: honour a leading BOM, default to
little-endian without one. -/
def utf16Decode (bs : List Nat) : Except Unit (List Char) :=
  match bs with
  | 0xFF :: 0xFE :: rest => utf16Aux true rest.length rest
  | 0xFE :: 0xFF :: rest => utf16Aux false rest.length rest
  | _ => utf16Aux true bs.length bs

/-- Fuel-driven UTF-32 code-unit parser. -/
def utf32Aux (le : Bool) : Nat → List Nat → Except Unit (List Char)
  | _, [] => .ok []
  | 0, _ => .error ()
  | fuel + 1, b0 :: b1 :: b2 :: b3 :: bs =>
    let u := if le then b0 + 256 * b1 + 65536 * b2 + 16777216 * b3
             else b3 + 256 * b2 + 65536 * b1 + 16777216 * b0
    if u > 0x10FFFF || (0xD800 ≤ u && u ≤ 0xDFFF) then .error ()
    else
      match utf32Aux le fuel bs with
      | .ok cs => .ok (Char.ofNat u :: cs)
      | .error _ => .error ()
  | _ + 1, _ => .error ()

/-- Model of `bytes.decode('utf-32')`: honour a leading BOM, default to
little-endian without one. -/
def utf32Decode (bs : List Nat) : Except Unit (List Char) :=
  match bs with
  | 0xFF :: 0xFE :: 0x0 :: 0x0 :: rest => utf32Aux true rest.length rest
  | 0x0 :: 0x0 :: 0xFE :: 0xFF :: rest => utf32Aux false rest.length rest
  | _ => utf32Aux true bs.length bs

/-- Model of `bytes.decode('iscii')` (src/app.py line 878): the Python
standard library ships no codec named `iscii`, so the lookup raises
`LookupError`; the decode therefore always fails (and the bare `except`
around it swallows the error). -/
def isciiDecode (_ : List Nat) : Except Unit (List Char) :=
  .error ()

/-- The number of printable characters of a decoded candidate
(`sum(c.isprintable() for c in decoded)`). -/
def printableCount (s : List Char) : Nat :=
  s.countP pyIsPrintable

/-- The acceptance test `sum(c.isprintable() for c in decoded) /
len(decoded) > 0.8`; on an empty candidate the division raises
`ZeroDivisionError`, modelled as `.error`. -/
def ratioOK (d : List Char) : Except Unit Bool :=
  if d.length = 0 then .error ()
  else .ok (decide (mkRat 4 5 < mkRat (printableCount d) d.length))

/-- The ordered fallback decoders of `decode_indic_text` (src/app.py lines
885-897): `utf-8, utf-16, utf-32, iso-8859-1, cp1252, ascii, latin1,
latin_1, iso-8859-15, windows-1252, mac_roman` (`latin1`/`latin_1` are the
iso-8859-1 codec, `windows-1252` is the cp1252 codec). -/
def fallbackCodecs : List (List Nat → Except Unit (List Char)) :=
  [utf8Decode, utf16Decode, utf32Decode, latin1Decode, cp1252Decode,
   asciiDecode, latin1Decode, latin1Decode, iso885915Decode, cp1252Decode,
   macRomanDecode]

/-- The `for encoding in encodings_to_try` loop (src/app.py lines
912-917): accept the first candidate that decodes and passes the
printable-ratio test; decoding errors and the `ZeroDivisionError` of the
ratio test are swallowed by the bare `except: continue`. -/
def tryEncodings : List (List Nat → Except Unit (List Char)) → List Nat →
    Option (List Char)
  | [], _ => none
  | dec :: rest, bs =>
    match dec bs with
    | .error _ => tryEncodings rest bs
    | .ok d =>
      match ratioOK d with
      | .error _ => tryEncodings rest bs
      | .ok true => some d
      | .ok false => tryEncodings rest bs

/-- The result of `chardet.detect`, an external collaborator modelled as
an oracle: a confidence and the outcome of decoding the input with the
detected encoding. -/
structure ChardetResult where
  confidence : ℚ
  decoded : Except Unit (List Char)

/-- The `chardet` step (src/app.py lines 903-908): when the reported
confidence exceeds `0.8`, return the detected decode; a decode failure is
swallowed by the bare `except: pass`. -/
def chardetStep (cd : List Nat → ChardetResult) (bs : List Nat) :
    Option (List Char) :=
  let r := cd bs
  if mkRat 4 5 < r.confidence then
    match r.decoded with
    | .ok d => some d
    | .error _ => none
  else none

/-- The tail of `decode_indic_text` operating on bytes: the `chardet`
attempt, the fallback-encoding loop, and the final
`decode('utf-8', errors='replace')` (src/app.py lines 900-920). -/
def decodeChain (cd : List Nat → ChardetResult) (bs : List Nat) :
    List Char :=
  match chardetStep cd bs with
  | some d => d
  | none =>
    match tryEncodings fallbackCodecs bs with
    | some d => d
    | none => utf8DecodeReplace bs

/-- `decode_indic_text` on a `str` argument (src/app.py lines 862-920):
conditional repair, the doomed ISCII attempt (inside which the text has
already been re-encoded to UTF-8 bytes), then the byte-level chain. -/
def decodeStr (cd : List Nat → ChardetResult) (s : List Char) : List Char :=
  if is_indic s then
    let bs := utf8Encode (applyReplacements s)
    match isciiDecode bs with
    | .ok d =>
      match ratioOK d with
      | .ok true => d
      | _ => decodeChain cd bs
    | .error _ => decodeChain cd bs
  else decodeChain cd (utf8Encode s)

/-- A Python argument that is either `str` or `bytes`. -/
inductive PyText where
  | str (s : List Char)
  | bytes (b : List Nat)

/-- An uncaught Python exception surfaced by the model. -/
inductive PyError where
  | typeError
deriving DecidableEq

/-- Model of `decode_indic_text` (src/app.py lines 787-920).  On a `bytes`
argument the very first statement executed, the generator inside
`any(marker in text for marker in indic_markers)` (line 864), evaluates
`'É' in text` with a `str` needle against a `bytes` haystack, which raises
`TypeError` before any `try` block is entered; nothing catches it. -/
def decode_indic_text (cd : List Nat → ChardetResult) :
    PyText → Except PyError (List Char)
  | .bytes _ => .error .typeError
  | .str s => .ok (decodeStr cd s)

/-- A concrete chardet oracle reporting no confidence, for witnesses. -/
def chardetNone : List Nat → ChardetResult :=
  fun _ => ⟨0, .error ()⟩

/-! ## The inline `ContentExporters.clean_text` of src/app.py (lines 329-335) -/

/-- The punctuation retained by the inline cleaner's character class
`[^\w\s\.\,\;\:\!\?\-\(\)\[\]\{\}]`. -/
def allowedPunct : List Char :=
  ['.', ',', ';', ':', '!', '?', '-', '(', ')', '[', ']',
   Char.ofNat 0x7B, Char.ofNat 0x7D]

/-- A character the inline cleaner keeps: word character, whitespace, or
listed punctuation. -/
def keepCleanChar (c : Char) : Bool :=
  pyIsWordChar c || pyIsSpace c || allowedPunct.contains c

namespace InlineExporters

/-- Model of the inline `ContentExporters.clean_text` (src/app.py lines
329-335): collapse whitespace runs, delete every character outside the
`[\w\s.,;:!?\-()\[\]\x7b\x7d]` class, and trim. -/
def clean_text (s : List Char) : List Char :=
  pyStrip ((collapseWS s).filter keepCleanChar)

end InlineExporters

/-! ## `ContentExporters.clean_text` of src/whitepaper/exporters.py (lines 8-96) -/

namespace Whitepaper

/-- The replacement table of `clean_text` (src/whitepaper/exporters.py
lines 25-89) in its effective form.  Three notes on fidelity to the
source file: the left/right double-quote entries are literally the plain
`"` character in the file (an identity replacement, inserted once since
dict keys de-duplicate); the two left/right single-quote lines begin with
`'''`, which Python parses as a triple-quoted string, so their effective
key is the 40-character string running from the colon of the first line
through the indentation of the second (mapped to `'`); duplicate keys
(`•`, `…`) keep their single entry. -/
def wpReplacements : List (List Char × List Char) :=
  [ (['–'], ['-']),
    (['—'], ['-', '-']),
    ([Char.ofNat 0x22], [Char.ofNat 0x22]),
    ([':', Char.ofNat 0x20, Char.ofNat 0x22, Char.ofNat 0x27,
      Char.ofNat 0x22, ',', Char.ofNat 0x20, Char.ofNat 0x20,
      Char.ofNat 0x23, Char.ofNat 0x20, 'l', 'e', 'f', 't',
      Char.ofNat 0x20, 's', 'i', 'n', 'g', 'l', 'e', Char.ofNat 0x20,
      'q', 'u', 'o', 't', 'e', Char.ofNat 0xA, Char.ofNat 0x20,
      Char.ofNat 0x20, Char.ofNat 0x20, Char.ofNat 0x20, Char.ofNat 0x20,
      Char.ofNat 0x20, Char.ofNat 0x20, Char.ofNat 0x20, Char.ofNat 0x20,
      Char.ofNat 0x20, Char.ofNat 0x20, Char.ofNat 0x20],
     [Char.ofNat 0x27]),
    (['…'], ['.', '.', '.']),
    (['•'], ['*']),
    (['→'], ['-', '>']),
    (['←'], ['<', '-']),
    (['±'], ['+', '/', '-']),
    (['×'], ['x']),
    (['÷'], ['/']),
    (['°'], [Char.ofNat 0x20, 'd', 'e', 'g']),
    (['Ω'], ['O', 'h', 'm']),
    (['α'], ['a', 'l', 'p', 'h', 'a']),
    (['β'], ['b', 'e', 't', 'a']),
    (['γ'], ['g', 'a', 'm', 'm', 'a']),
    (['δ'], ['d', 'e', 'l', 't', 'a']),
    (['μ'], ['m', 'u']),
    (['π'], ['p', 'i']),
    (['∞'], ['i', 'n', 'f', 'i', 'n', 'i', 't', 'y']),
    (['©'], ['(', 'c', ')']),
    (['®'], ['(', 'R', ')']),
    (['™'], ['(', 'T', 'M', ')']),
    (['€'], ['E', 'U', 'R']),
    (['£'], ['G', 'B', 'P']),
    (['¥'], ['J', 'P', 'Y']),
    (['§'], ['S']),
    (['¶'], ['P']),
    (['†'], ['+']),
    (['‡'], ['+', '+']),
    (['′'], [Char.ofNat 0x27]),
    (['″'], [Char.ofNat 0x22]),
    (['‴'], [Char.ofNat 0x22]),
    (['‵'], [Char.ofNat 0x60]),
    (['‶'], [Char.ofNat 0x60, Char.ofNat 0x60]),
    (['‷'], [Char.ofNat 0x60, Char.ofNat 0x60, Char.ofNat 0x60]),
    (['‸'], ['^']),
    (['※'], ['*']),
    (['‼'], ['!', '!']),
    (['⁇'], ['?', '?']),
    (['⁈'], ['?', '!']),
    (['⁉'], ['!', '?']),
    (['⁎'], ['*']),
    (['⁏'], [';']),
    (['⁐'], ['P']),
    (['⁑'], ['*', '*']),
    (['⁒'], ['%']),
    (['⁓'], ['~']),
    (['⁔'], ['_']),
    (['⁕'], ['*']),
    (['⁖'], ['.', '.', '.']),
    (['⁗'], ['.', '.', '.', '.']),
    (['⁘'], ['-']),
    (['⁙'], ['.', '.', '.', '.', '.']),
    (['⁚'], ['.', '.']),
    (['⁛'], ['.', '.', '.', '.']),
    (['⁜'], ['.', '.', '.']),
    (['⁝'], ['.', '.', '.']),
    (['⁞'], ['.', '.', '.', '.']) ]

/-- Model of `ContentExporters.clean_text` of src/whitepaper/exporters.py
on a `str` argument (the `isinstance(text, bytes)` branch is skipped):
apply the replacement table sequentially, then keep only characters with
code point below 256. -/
def clean_text (s : List Char) : List Char :=
  (wpReplacements.foldl (fun t p => strReplace p.1 p.2 t) s).filter
    (fun c => c.toNat < 256)

end Whitepaper

/-! ## `translate_to_english` (src/app.py lines 944-960) -/

/-- The f-string prompt built by `translate_to_english`, with the input
text spliced into the middle. -/
def translatePrompt (text : List Char) : List Char :=
  ("Translate the following Hindi/Devanagari text to English. \nKeep technical terms as is, and maintain any numerical values or measurements exactly.\nPreserve formatting and structure of the text.\n\nText to translate:\n").data ++
  text ++
  ("\n\nPlease provide a clear and accurate translation while keeping technical terminology intact.").data

/-- Model of `translate_to_english` (src/app.py lines 944-960).  The
external call `model.generate_content(prompt)` (and the `response.text`
access) is the oracle `gen`; the surrounding `try`/`except` returns the
original text untouched when the call fails. -/
def translate_to_english (gen : List Char → Except Unit (List Char))
    (text : List Char) : List Char :=
  match gen (translatePrompt text) with
  | .ok r => r
  | .error _ => text

/-! ## The per-page conversion loop of `research_converter_page`
(src/app.py lines 1028-1042) -/

/-- The per-page processing pipeline: decode (`decode_indic_text` on the
extracted `str`), normalize, clean. -/
def processOnePage (cd : List Nat → ChardetResult) (t : List Char) :
    List Char :=
  InlineExporters.clean_text (normalize_text (decodeStr cd t))

/-- The block a non-empty page contributes to `processed_text`:
`f"\n=== Page {i} ===\n{cleaned_text}\n"`. -/
def pageBlock (cd : List Nat → ChardetResult) (i : Nat) (t : List Char) :
    List Char :=
  '\n' :: (("=== Page ").data ++ (Nat.repr i).data ++ (" ===").data) ++
    '\n' :: (processOnePage cd t ++ ['\n'])

/-- Model of the `for i, page in enumerate(pdf_reader.pages, 1)` loop of
`research_converter_page` (src/app.py lines 1028-1042): the pages' already
extracted texts are the input (extraction is an external collaborator);
the accumulator carries the growing `processed_text` and the 1-based page
counter, and a page whose text is empty (falsy) contributes nothing while
still advancing the counter. -/
def processPages (cd : List Nat → ChardetResult)
    (pages : List (List Char)) : List Char :=
  (pages.foldl
    (fun acc t =>
      (if t.isEmpty then acc.1 else acc.1 ++ pageBlock cd acc.2 t,
       acc.2 + 1))
    (([] : List Char), 1)).1

/-- 1-based indexing of a list, for stating the fold/concatenation
equivalence. -/
def indexFrom (i : Nat) : List (List Char) → List (Nat × List Char)
  | [] => []
  | t :: ts => (i, t) :: indexFrom (i + 1) ts

/-! ## Helper lemmas about the string primitives -/

theorem containsSub_single {a : Char} {s : List Char} :
    containsSub [a] s = true ↔ a ∈ s := by
  induction s with
  | nil => simp [containsSub]
  | cons c cs ih =>
    have hpre : List.isPrefixOf [a] (c :: cs) = (a == c) := by
      simp [List.isPrefixOf]
    rw [containsSub, hpre, Bool.or_eq_true, ih, beq_iff_eq, List.mem_cons]

theorem strReplaceAux_mem {old new : List Char} :
    ∀ (fuel : Nat) (s : List Char) {c : Char},
      c ∈ strReplaceAux old new fuel s → c ∈ new ∨ c ∈ s := by
  intro fuel
  induction fuel with
  | zero =>
    intro s c h
    cases s with
    | nil => simp [strReplaceAux] at h
    | cons c' cs => exact Or.inr (by simpa [strReplaceAux] using h)
  | succ fuel ih =>
    intro s c h
    cases s with
    | nil => simp [strReplaceAux] at h
    | cons c' cs =>
      by_cases hp : old.isPrefixOf (c' :: cs)
      · simp only [strReplaceAux, if_pos hp, List.mem_append] at h
        rcases h with h | h
        · exact Or.inl h
        · rcases ih _ h with h' | h'
          · exact Or.inl h'
          · exact Or.inr (List.mem_cons_of_mem _ (List.mem_of_mem_drop h'))
      · simp only [strReplaceAux, if_neg hp, List.mem_cons] at h
        rcases h with rfl | h
        · exact Or.inr (List.mem_cons_self _ _)
        · rcases ih _ h with h' | h'
          · exact Or.inl h'
          · exact Or.inr (List.mem_cons_of_mem _ h')

theorem strReplace_mem {old new s : List Char} {c : Char}
    (h : c ∈ strReplace old new s) : c ∈ new ∨ c ∈ s := by
  unfold strReplace at h
  split at h
  · exact Or.inr h
  · exact strReplaceAux_mem _ _ h

theorem strReplaceAux_of_not_sub {old new : List Char} :
    ∀ (fuel : Nat) (s : List Char), containsSub old s = false →
      strReplaceAux old new fuel s = s := by
  intro fuel
  induction fuel with
  | zero => intro s _; cases s <;> simp [strReplaceAux]
  | succ fuel ih =>
    intro s h
    cases s with
    | nil => simp [strReplaceAux]
    | cons c cs =>
      rw [containsSub, Bool.or_eq_false_iff] at h
      rw [strReplaceAux, if_neg (by simp [h.1]), ih _ h.2]

theorem strReplace_of_not_sub {old new s : List Char}
    (h : containsSub old s = false) : strReplace old new s = s := by
  unfold strReplace
  split
  · rfl
  · exact strReplaceAux_of_not_sub _ _ h

theorem strReplaceAux_single_elim {a : Char} {new : List Char}
    (ha : a ∉ new) :
    ∀ (fuel : Nat) (s : List Char), s.length ≤ fuel →
      a ∉ strReplaceAux [a] new fuel s := by
  intro fuel
  induction fuel with
  | zero =>
    intro s hs
    have : s = [] := List.length_eq_zero.mp (Nat.le_zero.mp hs)
    subst this
    simp [strReplaceAux]
  | succ fuel ih =>
    intro s hs
    cases s with
    | nil => simp [strReplaceAux]
    | cons c cs =>
      by_cases hp : List.isPrefixOf [a] (c :: cs)
      · rw [strReplaceAux, if_pos hp]
        simp only [List.length_cons, List.length_singleton] at hs ⊢
        intro hmem
        rcases List.mem_append.mp hmem with h | h
        · exact ha h
        · exact ih _ (by simpa using Nat.le_of_succ_le_succ hs)
            (by simpa using h)
      · rw [strReplaceAux, if_neg hp]
        have hne : a ≠ c := by
          intro h; exact hp (by simp [List.isPrefixOf, h])
        intro hmem
        rcases List.mem_cons.mp hmem with h | h
        · exact hne h
        · exact ih _ (by simpa using Nat.le_of_succ_le_succ hs) h

theorem strReplace_single_elim {a : Char} {new s : List Char}
    (ha : a ∉ new) : a ∉ strReplace [a] new s := by
  unfold strReplace
  simp only [List.isEmpty, if_neg]
  exact strReplaceAux_single_elim ha _ _ (Nat.le_refl _)

theorem foldl_strReplace_mem :
    ∀ (l : List (List Char × List Char)) (s : List Char) {c : Char},
      c ∈ l.foldl (fun t p => strReplace p.1 p.2 t) s →
        (∃ p ∈ l, c ∈ p.2) ∨ c ∈ s := by
  intro l
  induction l with
  | nil => intro s c h; exact Or.inr h
  | cons p rest ih =>
    intro s c h
    rcases ih _ h with ⟨q, hq, hc⟩ | h'
    · exact Or.inl ⟨q, List.mem_cons_of_mem _ hq, hc⟩
    · rcases strReplace_mem h' with h'' | h''
      · exact Or.inl ⟨p, List.mem_cons_self _ _, h''⟩
      · exact Or.inr h''

theorem foldl_strReplace_not_mem {a : Char}
    {l : List (List Char × List Char)} {s : List Char}
    (hs : a ∉ s) (hl : ∀ p ∈ l, a ∉ p.2) :
    a ∉ l.foldl (fun t p => strReplace p.1 p.2 t) s := by
  intro h
  rcases foldl_strReplace_mem _ _ h with ⟨q, hq, hc⟩ | h'
  · exact hl q hq hc
  · exact hs h'

theorem foldl_strReplace_id {l : List (List Char × List Char)}
    {s : List Char} (h : ∀ p ∈ l, containsSub p.1 s = false) :
    l.foldl (fun t p => strReplace p.1 p.2 t) s = s := by
  induction l with
  | nil => rfl
  | cons p rest ih =>
    have h1 := h p (List.mem_cons_self _ _)
    simp only [List.foldl_cons, strReplace_of_not_sub h1]
    exact ih (fun q hq => h q (List.mem_cons_of_mem _ hq))

theorem foldl_strReplace_elim :
    ∀ (l : List (List Char × List Char)) (a : Char) (s : List Char),
      l.any (fun p => p.1 == [a]) = true → (∀ p ∈ l, a ∉ p.2) →
        a ∉ l.foldl (fun t p => strReplace p.1 p.2 t) s := by
  intro l
  induction l with
  | nil => intro a s h; simp at h
  | cons p rest ih =>
    intro a s h1 h2
    simp only [List.any_cons, Bool.or_eq_true, beq_iff_eq] at h1
    rcases h1 with h1 | h1
    · simp only [List.foldl_cons, h1]
      exact foldl_strReplace_not_mem
        (strReplace_single_elim (h2 p (List.mem_cons_self _ _)))
        (fun q hq => h2 q (List.mem_cons_of_mem _ hq))
    · simp only [List.foldl_cons]
      exact ih _ _ h1 (fun q hq => h2 q (List.mem_cons_of_mem _ hq))

/-- Every whitespace character of the string is a plain ASCII space. -/
def spacesSingle (s : List Char) : Prop :=
  ∀ c ∈ s, pyIsSpace c = true → c = ' '

/-- No two adjacent characters of the string are both whitespace. -/
def noAdjSpaces (s : List Char) : Prop :=
  List.Chain' (fun a b => ¬(pyIsSpace a = true ∧ pyIsSpace b = true)) s

theorem collapseWS_cons_nonspace {c : Char} {cs : List Char}
    (h : pyIsSpace c = false) :
    collapseWS (c :: cs) = c :: collapseWS cs := by
  cases cs with
  | nil => simp [collapseWS, h]
  | cons c2 cs2 => simp [collapseWS, h]

theorem collapseWS_mem :
    ∀ {s : List Char} {c : Char}, c ∈ collapseWS s →
      c = ' ' ∨ (c ∈ s ∧ pyIsSpace c = false) := by
  intro s
  induction s with
  | nil => intro c h; simp [collapseWS] at h
  | cons c1 cs ih =>
    intro c h
    cases cs with
    | nil =>
      by_cases h1 : pyIsSpace c1 = true
      · simp [collapseWS, h1] at h
        exact Or.inl h
      · simp [collapseWS, Bool.eq_false_iff.mpr h1] at h
        subst h
        exact Or.inr ⟨List.mem_cons_self _ _, Bool.eq_false_iff.mpr h1⟩
    | cons c2 cs2 =>
      by_cases h1 : pyIsSpace c1 = true
      · by_cases h2 : pyIsSpace c2 = true
        · rw [collapseWS, if_pos h1, if_pos h2] at h
          rcases ih h with h' | h'
          · exact Or.inl h'
          · exact Or.inr ⟨List.mem_cons_of_mem _ h'.1, h'.2⟩
        · rw [collapseWS, if_pos h1,
            if_neg (Bool.eq_false_iff.mp (Bool.not_eq_true _ ▸ h2))] at h
          rcases List.mem_cons.mp h with rfl | h'
          · exact Or.inl rfl
          · rcases ih h' with h'' | h''
            · exact Or.inl h''
            · exact Or.inr ⟨List.mem_cons_of_mem _ h''.1, h''.2⟩
      · rw [collapseWS, if_neg h1] at h
        rcases List.mem_cons.mp h with rfl | h'
        · exact Or.inr ⟨List.mem_cons_self _ _, Bool.eq_false_iff.mpr h1⟩
        · rcases ih h' with h'' | h''
          · exact Or.inl h''
          · exact Or.inr ⟨List.mem_cons_of_mem _ h''.1, h''.2⟩

theorem collapseWS_spacesSingle (s : List Char) :
    spacesSingle (collapseWS s) := by
  intro c hc hsp
  rcases collapseWS_mem hc with h | h
  · exact h
  · simp [h.2] at hsp

theorem collapseWS_head_nonspace {c : Char} {cs : List Char}
    (h : pyIsSpace c = false) :
    (collapseWS (c :: cs)).head? = some c := by
  rw [collapseWS_cons_nonspace h]; rfl

theorem collapseWS_noAdj : ∀ (s : List Char), noAdjSpaces (collapseWS s) := by
  intro s
  induction s with
  | nil => exact List.chain'_nil
  | cons c1 cs ih =>
    cases cs with
    | nil =>
      by_cases h1 : pyIsSpace c1 = true <;>
        simp [collapseWS, h1, noAdjSpaces]
    | cons c2 cs2 =>
      by_cases h1 : pyIsSpace c1 = true
      · by_cases h2 : pyIsSpace c2 = true
        · rw [noAdjSpaces, collapseWS, if_pos h1, if_pos h2]
          exact ih
        · have h2' : pyIsSpace c2 = false := Bool.eq_false_iff.mpr h2
          rw [noAdjSpaces, collapseWS, if_pos h1, if_neg (by simp [h2'])]
          rw [List.chain'_cons']
          refine ⟨?_, ih⟩
          intro y hy
          rw [collapseWS_head_nonspace h2'] at hy
          cases hy
          intro hcon
          rw [h2'] at hcon
          exact Bool.false_ne_true hcon.2
      · have h1' : pyIsSpace c1 = false := Bool.eq_false_iff.mpr h1
        rw [noAdjSpaces, collapseWS, if_neg (by simp [h1'])]
        rw [List.chain'_cons']
        refine ⟨?_, ih⟩
        intro y _ hcon
        rw [h1'] at hcon
        exact Bool.false_ne_true hcon.1

theorem collapseWS_id :
    ∀ {s : List Char}, spacesSingle s → noAdjSpaces s → collapseWS s = s := by
  intro s
  induction s with
  | nil => intro _ _; rfl
  | cons c1 cs ih =>
    intro hs hn
    cases cs with
    | nil =>
      by_cases h1 : pyIsSpace c1 = true
      · have := hs c1 (List.mem_cons_self _ _) h1
        simp [collapseWS, h1, this]
      · simp [collapseWS, Bool.eq_false_iff.mpr h1]
    | cons c2 cs2 =>
      have htail : noAdjSpaces (c2 :: cs2) := (List.chain'_cons.mp hn).2
      have hstail : spacesSingle (c2 :: cs2) :=
        fun c hc => hs c (List.mem_cons_of_mem _ hc)
      by_cases h1 : pyIsSpace c1 = true
      · have h2 : pyIsSpace c2 = false := by
          rcases (List.chain'_cons.mp hn).1 with h
          by_cases hc2 : pyIsSpace c2 = true
          · exact absurd ⟨h1, hc2⟩ h
          · exact Bool.eq_false_iff.mpr hc2
        have hc1 : c1 = ' ' := hs c1 (List.mem_cons_self _ _) h1
        rw [collapseWS, if_pos h1, if_neg (by simp [h2]), ih hstail htail, hc1]
      · rw [collapseWS, if_neg h1, ih hstail htail]

theorem pyStrip_infixOf (s : List Char) : pyStrip s <:+: s := by
  have h1 : List.dropWhile pyIsSpace s <:+ s := List.dropWhile_suffix _
  have h2 : List.dropWhile pyIsSpace (s.dropWhile pyIsSpace).reverse <:+
      (s.dropWhile pyIsSpace).reverse := List.dropWhile_suffix _
  have h3 : pyStrip s <+: s.dropWhile pyIsSpace := by
    rw [pyStrip]
    simpa using List.reverse_prefix.mpr h2
  exact h3.isInfix.trans h1.isInfix

theorem pyStrip_mem {s : List Char} {c : Char} (h : c ∈ pyStrip s) :
    c ∈ s := (pyStrip_infixOf s).subset h

theorem dropWhile_head?_false {p : Char → Bool} :
    ∀ {l : List Char} {c : Char}, (l.dropWhile p).head? = some c →
      p c = false := by
  intro l
  induction l with
  | nil => intro c h; simp [List.dropWhile] at h
  | cons x xs ih =>
    intro c h
    by_cases hx : p x = true
    · rw [List.dropWhile_cons, if_pos hx] at h
      exact ih h
    · rw [List.dropWhile_cons, if_neg hx] at h
      cases h
      exact Bool.eq_false_iff.mpr hx

theorem pyStrip_getLast {s : List Char} {c : Char}
    (h : (pyStrip s).getLast? = some c) : pyIsSpace c = false := by
  rw [pyStrip, List.getLast?_reverse] at h
  exact dropWhile_head?_false h

theorem suffix_getLast? {l t : List Char} (h : t <:+ l) (hne : t ≠ []) :
    l.getLast? = t.getLast? := by
  obtain ⟨pre, rfl⟩ := h
  rw [List.getLast?_append]
  cases ht : t.getLast? with
  | none => exact absurd (List.getLast?_eq_none_iff.mp ht) hne
  | some d => rfl

theorem pyStrip_head {s : List Char} {c : Char}
    (h : (pyStrip s).head? = some c) : pyIsSpace c = false := by
  rw [pyStrip, List.head?_reverse] at h
  by_cases hne : List.dropWhile pyIsSpace (s.dropWhile pyIsSpace).reverse = []
  · rw [hne] at h; simp at h
  · have heq := suffix_getLast?
      (List.dropWhile_suffix (l := (s.dropWhile pyIsSpace).reverse)
        pyIsSpace) hne
    rw [← heq, List.getLast?_reverse] at h
    exact dropWhile_head?_false h

theorem dropWhile_eq_self_of_head {p : Char → Bool} {l : List Char}
    (h : ∀ c, l.head? = some c → p c = false) : l.dropWhile p = l := by
  cases l with
  | nil => rfl
  | cons x xs => rw [List.dropWhile_cons, if_neg (by simp [h x rfl])]

theorem pyStrip_idem (s : List Char) : pyStrip (pyStrip s) = pyStrip s := by
  conv_lhs => rw [pyStrip]
  rw [dropWhile_eq_self_of_head (fun c hc => pyStrip_head hc)]
  rw [dropWhile_eq_self_of_head (fun c hc => by
    rw [List.head?_reverse] at hc
    exact pyStrip_getLast hc)]
  exact List.reverse_reverse _

theorem pyStrip_spacesSingle {s : List Char} (h : spacesSingle s) :
    spacesSingle (pyStrip s) :=
  fun c hc => h c (pyStrip_mem hc)

theorem pyStrip_noAdj {s : List Char} (h : noAdjSpaces s) :
    noAdjSpaces (pyStrip s) :=
  List.Chain'.infix h (pyStrip_infixOf s)

theorem normNewlinesAux_id :
    ∀ (fuel : Nat) {s : List Char}, '\n' ∉ s →
      normNewlinesAux fuel s = s := by
  intro fuel
  induction fuel with
  | zero => intro s _; cases s <;> simp [normNewlinesAux]
  | succ fuel ih =>
    intro s h
    cases s with
    | nil => simp [normNewlinesAux]
    | cons c cs =>
      have hc : ¬(c = '\n') := fun hcn => h (hcn ▸ List.mem_cons_self _ _)
      rw [normNewlinesAux, if_neg hc, ih (fun hm => h (List.mem_cons_of_mem _ hm))]

theorem normNewlines_id {s : List Char} (h : '\n' ∉ s) :
    normNewlines s = s :=
  normNewlinesAux_id _ h

/-! ## Structural facts about `normalize_text` -/

theorem no_newline_collapseWS (s : List Char) : '\n' ∉ collapseWS s := by
  intro hm
  rcases collapseWS_mem hm with h | h
  · exact absurd h (by decide)
  · exact absurd h.2 (by decide)

/-- After the second whitespace collapse no newline survives, so the
`\n\s*\n` rewrite is the identity and `normalize_text` is a strip of a
whitespace-collapsed string. -/
theorem normalize_text_eq (s : List Char) :
    normalize_text s =
      pyStrip (collapseWS (artifactSteps.foldl
        (fun t p => strReplace p.1 p.2 t)
        (collapseWS (s.filter keepChar)))) := by
  simp only [normalize_text]
  rw [normNewlines_id (no_newline_collapseWS _)]

attribute [irreducible] normalize_text noAdjSpaces

theorem normalize_spacesSingle (s : List Char) :
    spacesSingle (normalize_text s) := by
  rw [normalize_text_eq]
  exact pyStrip_spacesSingle (collapseWS_spacesSingle _)

theorem normalize_noAdj (s : List Char) : noAdjSpaces (normalize_text s) := by
  rw [normalize_text_eq]
  exact pyStrip_noAdj (collapseWS_noAdj _)

theorem normalize_no_newline (s : List Char) : '\n' ∉ normalize_text s := by
  rw [normalize_text_eq]
  intro hm
  exact no_newline_collapseWS _ (pyStrip_mem hm)

theorem artifact_new_chars :
    ∀ p ∈ artifactSteps, ∀ c ∈ p.2, keepChar c = true := by decide

theorem normalize_chars_keep (s : List Char) :
    ∀ c ∈ normalize_text s, keepChar c = true := by
  intro c hc
  rw [normalize_text_eq] at hc
  rcases collapseWS_mem (pyStrip_mem hc) with rfl | ⟨hc2, _⟩
  · decide
  · rcases foldl_strReplace_mem _ _ hc2 with ⟨p, hp, hcp⟩ | hc3
    · exact artifact_new_chars p hp c hcp
    · rcases collapseWS_mem hc3 with rfl | ⟨hc4, _⟩
      · decide
      · exact (List.mem_filter.mp hc4).2

theorem pyStrip_normalize (s : List Char) :
    pyStrip (normalize_text s) = normalize_text s := by
  rw [normalize_text_eq]
  exact pyStrip_idem _

/-- Claim C2 (amended): `normalize_text` is idempotent on every input
whose normalized form contains none of the six artifact patterns; the
restriction is forced because a later artifact rewrite (the `Â` deletion)
can re-form an earlier pattern, as the counterexample shows. -/
theorem normalize_text_idem_of_no_patterns (s : List Char)
    (h : ∀ p ∈ artifactSteps, containsSub p.1 (normalize_text s) = false) :
    normalize_text (normalize_text s) = normalize_text s := by
  have hkeep := normalize_chars_keep s
  have hss := normalize_spacesSingle s
  have hna := normalize_noAdj s
  rw [normalize_text_eq (normalize_text s), List.filter_eq_self.mpr hkeep,
    collapseWS_id hss hna, foldl_strReplace_id h, collapseWS_id hss hna,
    pyStrip_normalize]

set_option allowUnsafeReducibility true in
attribute [semireducible] normalize_text noAdjSpaces

/-- Claim C2 (counterexample): `normalize_text` is not idempotent.  On the
input `âÂ€™` the first pass deletes the `Â` (its own replacement having
already run), thereby forming the artifact pattern `â€™`, which the second
pass rewrites to an apostrophe. -/
theorem normalize_text_not_idempotent :
    normalize_text (normalize_text ['â', 'Â', '€', '™']) ≠
      normalize_text ['â', 'Â', '€', '™'] := by decide

/-- Witness for the amended claim C2 at a concrete input. -/
theorem normalize_text_idem_witness :
    normalize_text (normalize_text ("ab  cd".data)) =
      normalize_text ("ab  cd".data) :=
  normalize_text_idem_of_no_patterns _ (by decide)

/-- Claim C6 (counterexample): an input with two consecutive blank lines
normalizes to output with no blank line at all — indeed no newline — the
run having been collapsed to a single space by the whitespace pass. -/
theorem normalize_text_blank_lines_cex :
    normalize_text ('a' :: '\n' :: '\n' :: '\n' :: ['b']) = ['a', ' ', 'b'] ∧
    '\n' ∉ normalize_text ('a' :: '\n' :: '\n' :: '\n' :: ['b']) := by decide

/-- Claim C6 (amended): every whitespace character surviving
`normalize_text` is a single ASCII space — newlines never survive, so a
blank-line run becomes one space, not one blank line — and three leading
spaces are removed entirely by the final trim. -/
theorem normalize_text_newlines_vanish :
    (∀ s c, c ∈ normalize_text s → pyIsSpace c = true → c = ' ') ∧
    normalize_text ('a' :: '\n' :: '\n' :: '\n' :: ['b']) = ['a', ' ', 'b'] ∧
    normalize_text (' ' :: ' ' :: ' ' :: ['x']) = ['x'] :=
  ⟨fun s => normalize_spacesSingle s, by decide, by decide⟩

/-- Witness for claim C6 at a concrete input. -/
theorem normalize_text_newlines_vanish_witness : (' ' : Char) = ' ' :=
  normalize_text_newlines_vanish.1 ['a', '\t', 'b'] ' '
    (by decide) (by decide)

/-! ## Claims about `repair` (C3, C7) -/

/-- Claim C3: on text containing none of the legacy-script marker
characters, `repair` is the identity — the substitution table only
engages when the `is_indic` marker check succeeds. -/
theorem repair_id_of_marker_free (s : List Char)
    (h : ∀ m ∈ indic_markers, m ∉ s) : repair s = s := by
  have hind : is_indic s = false := by
    rw [is_indic, List.any_eq_false]
    intro m hm hc
    exact h m hm (containsSub_single.mp hc)
  rw [repair, if_neg (by simp [hind])]

/-- Witness for claim C3: marker-free text (even containing the mapped
but unmarked character `P`) passes through unchanged. -/
theorem repair_id_of_marker_free_witness :
    repair ("Hello P".data) = "Hello P".data :=
  repair_id_of_marker_free _ (by decide)

/-- Claim C7: `repair` is idempotent.  When the marker check fires, every
marker character is itself a key of the substitution table and every
replacement value is Devanagari, so the repaired output contains no
marker and the second application is the identity. -/
theorem repair_idempotent (s : List Char) :
    repair (repair s) = repair s := by
  by_cases h : is_indic s = true
  · have h1 : ∀ m ∈ indic_markers,
        replacements.any (fun p => p.1 == [m]) = true := by decide
    have h2 : ∀ m ∈ indic_markers, ∀ p ∈ replacements, m ∉ p.2 := by decide
    have hind2 : is_indic (applyReplacements s) = false := by
      rw [is_indic, List.any_eq_false]
      intro m hm hc
      exact foldl_strReplace_elim replacements m s (h1 m hm) (h2 m hm)
        (containsSub_single.mp hc)
    have hr : repair s = applyReplacements s := by rw [repair, if_pos h]
    rw [hr, repair, if_neg (by simp [hind2])]
  · have hr : repair s = s := by rw [repair, if_neg h]
    rw [hr]
    exact hr

/-! ## Claim C9: `translate_to_english` error fallback -/

/-- Claim C9: when the external generation call fails,
`translate_to_english` returns the input text unchanged; in every case it
returns either the model response or the untouched input — no failure
propagates. -/
theorem translate_to_english_fallback :
    (∀ gen text, gen (translatePrompt text) = .error () →
      translate_to_english gen text = text) ∧
    (∀ gen text, translate_to_english gen text = text ∨
      ∃ r, gen (translatePrompt text) = .ok r ∧
        translate_to_english gen text = r) := by
  constructor
  · intro gen text h
    simp [translate_to_english, h]
  · intro gen text
    rcases hg : gen (translatePrompt text) with e | r
    · left; simp [translate_to_english, hg]
    · right; exact ⟨r, rfl, by simp [translate_to_english, hg]⟩

/-- Witness for claim C9 with a concrete always-failing oracle. -/
theorem translate_to_english_fallback_witness :
    translate_to_english (fun _ => .error ()) ("नमस्ते".data) =
      "नमस्ते".data :=
  translate_to_english_fallback.1 _ _ rfl

/-! ## Claim C4: the whitepaper exporter cleaner stays below 256 -/

/-- Claim C4: every character of the output of the whitepaper
`clean_text` has code point below 256; mapped characters (such as `€`)
are rewritten to ASCII, everything else at or above 256 is dropped by the
final filter. -/
theorem wp_clean_text_below_256 :
    (∀ s c, c ∈ Whitepaper.clean_text s → c.toNat < 256) ∧
    Whitepaper.clean_text ['€'] = ['E', 'U', 'R'] := by
  constructor
  · intro s c hc
    exact of_decide_eq_true (List.mem_filter.mp hc).2
  · decide

/-- Witness for claim C4 at a concrete input. -/
theorem wp_clean_text_below_256_witness : ('E' : Char).toNat < 256 :=
  wp_clean_text_below_256.1 ['€'] 'E' (by decide)

/-! ## Claim C10: the inline cleaner's character class -/

/-- Claim C10: the inline `clean_text` returns a trimmed string whose
every character is a word character, whitespace, or one of the thirteen
listed punctuation marks; any other character — `©` among them — is
deleted outright rather than mapped. -/
theorem inline_clean_text_charclass :
    (∀ s c, c ∈ InlineExporters.clean_text s →
      pyIsWordChar c = true ∨ pyIsSpace c = true ∨ c ∈ allowedPunct) ∧
    (∀ s c, (InlineExporters.clean_text s).head? = some c →
      pyIsSpace c = false) ∧
    (∀ s c, (InlineExporters.clean_text s).getLast? = some c →
      pyIsSpace c = false) ∧
    InlineExporters.clean_text ['a', '©', 'b'] = ['a', 'b'] := by
  refine ⟨?_, ?_, ?_, by decide⟩
  · intro s c hc
    have hk : keepCleanChar c = true :=
      (List.mem_filter.mp (pyStrip_mem hc)).2
    rw [keepCleanChar] at hk
    simp only [Bool.or_eq_true] at hk
    rcases hk with (hk | hk) | hk
    · exact Or.inl hk
    · exact Or.inr (Or.inl hk)
    · exact Or.inr (Or.inr (by simpa using hk))
  · intro s c hc
    exact pyStrip_head hc
  · intro s c hc
    exact pyStrip_getLast hc

/-- Witness for claim C10 at a concrete input. -/
theorem inline_clean_text_charclass_witness :
    (pyIsWordChar 'a' = true ∨ pyIsSpace 'a' = true ∨ 'a' ∈ allowedPunct) ∧
    pyIsSpace 'a' = false :=
  ⟨inline_clean_text_charclass.1 ['a', '©', 'b'] 'a' (by decide),
   inline_clean_text_charclass.2.1 ['a', '©', 'b'] 'a' (by decide)⟩

/-! ## Claim C8: the page loop is an order-preserving fold -/

theorem processPages_aux (cd : List Nat → ChardetResult) :
    ∀ (pages : List (List Char)) (acc : List Char) (i : Nat),
      (pages.foldl
        (fun acc t =>
          (if t.isEmpty then acc.1 else acc.1 ++ pageBlock cd acc.2 t,
           acc.2 + 1)) (acc, i)).1 =
      acc ++ ((indexFrom i pages).map
        (fun p => if p.2.isEmpty then [] else pageBlock cd p.1 p.2)).flatten := by
  intro pages
  induction pages with
  | nil => intro acc i; simp [indexFrom]
  | cons t ts ih =>
    intro acc i
    simp only [List.foldl_cons, indexFrom, List.map_cons, List.flatten_cons]
    rw [ih]
    by_cases ht : t.isEmpty <;> simp [ht, List.append_assoc]

/-- Claim C8: the page loop is a linear fold with no cross-page state —
its result is exactly the concatenation, in input order, of each
non-empty page's processed text under its 1-based `=== Page n ===`
banner. -/
theorem processPages_eq_join_map (cd : List Nat → ChardetResult)
    (pages : List (List Char)) :
    processPages cd pages =
      ((indexFrom 1 pages).map
        (fun p => if p.2.isEmpty then [] else pageBlock cd p.1 p.2)).flatten := by
  simpa [processPages] using processPages_aux cd pages [] 1

/-! ## Claims C1 and C5: the decode chain -/

theorem decodeChain_all_fail (cd : List Nat → ChardetResult)
    (bs : List Nat) (h1 : ¬(mkRat 4 5 < (cd bs).confidence))
    (h2 : tryEncodings fallbackCodecs bs = none) :
    decodeChain cd bs = utf8DecodeReplace bs := by
  have hc : chardetStep cd bs = none := by
    rw [chardetStep, if_neg h1]
  simp [decodeChain, hc, h2]

/-- Claim C1: `decode_indic_text` never raises on `str` input and always
returns a string; when chardet is unconfident and every fallback
candidate fails the printable-ratio test it returns the lossy UTF-8
decode, and the zero-length input yields the empty string.  On `bytes`
input, however, the marker check raises `TypeError` (the code-bug side of
the claim). -/
theorem decode_indic_text_total_on_str :
    (∀ cd b, decode_indic_text cd (.bytes b) = .error .typeError) ∧
    (∀ cd s, ∃ out, decode_indic_text cd (.str s) = .ok out) ∧
    (∀ cd bs, ¬(mkRat 4 5 < (cd bs).confidence) →
      tryEncodings fallbackCodecs bs = none →
      decodeChain cd bs = utf8DecodeReplace bs) ∧
    (∀ cd, ¬(mkRat 4 5 < (cd []).confidence) →
      decode_indic_text cd (.str []) = .ok []) := by
  refine ⟨fun cd b => rfl, fun cd s => ⟨decodeStr cd s, rfl⟩,
    decodeChain_all_fail, ?_⟩
  intro cd h1
  have h3 : decodeStr cd [] = decodeChain cd [] := by
    rw [decodeStr, if_neg (by decide)]
    rfl
  have h4 : tryEncodings fallbackCodecs [] = none := by decide
  have h5 : decodeStr cd [] = [] := by
    rw [h3, decodeChain_all_fail cd [] h1 h4]
    rfl
  simp only [decode_indic_text, h5]

/-- Witness for claim C1 at concrete inputs. -/
theorem decode_indic_text_total_witness :
    decode_indic_text chardetNone (.bytes [104, 105]) = .error .typeError ∧
    decode_indic_text chardetNone (.str []) = .ok [] :=
  ⟨decode_indic_text_total_on_str.1 chardetNone _,
   decode_indic_text_total_on_str.2.2.2 chardetNone (by decide)⟩

/-- Claim C5: in the fallback loop a candidate that fails to decode, or
whose printable ratio is not above `4/5`, is skipped and the chain
continues; the first candidate above the threshold is returned; hence on
a `str` whose bytes decode low-ratio under an early encoding and
high-ratio under a later one, the later one's result is returned. -/
theorem tryEncodings_ratio_rules :
    (∀ dec rest bs, dec bs = .error () →
      tryEncodings (dec :: rest) bs = tryEncodings rest bs) ∧
    (∀ dec rest bs d, dec bs = .ok d →
      ¬(mkRat 4 5 < mkRat (printableCount d) d.length) →
      tryEncodings (dec :: rest) bs = tryEncodings rest bs) ∧
    (∀ dec rest bs d, dec bs = .ok d → d ≠ [] →
      mkRat 4 5 < mkRat (printableCount d) d.length →
      tryEncodings (dec :: rest) bs = some d) ∧
    (∀ cd s d, is_indic s = false →
      ¬(mkRat 4 5 < (cd (utf8Encode s)).confidence) →
      tryEncodings fallbackCodecs (utf8Encode s) = some d →
      decode_indic_text cd (.str s) = .ok d) := by
  refine ⟨?_, ?_, ?_, ?_⟩
  · intro dec rest bs h
    simp [tryEncodings, h]
  · intro dec rest bs d h hr
    by_cases hd : d.length = 0
    · have : ratioOK d = .error () := by rw [ratioOK, if_pos hd]
      simp [tryEncodings, h, this]
    · have : ratioOK d = .ok false := by
        rw [ratioOK, if_neg hd]
        exact congrArg _ (decide_eq_false hr)
      simp [tryEncodings, h, this]
  · intro dec rest bs d h hd hr
    have hlen : ¬(d.length = 0) := fun h0 => hd (List.length_eq_zero.mp h0)
    have : ratioOK d = .ok true := by
      rw [ratioOK, if_neg hlen]
      exact congrArg _ (decide_eq_true hr)
    simp [tryEncodings, h, this]
  · intro cd s d hind hconf htry
    have hc : chardetStep cd (utf8Encode s) = none := by
      rw [chardetStep, if_neg hconf]
    have : decodeStr cd s = d := by
      rw [decodeStr, if_neg (by simp [hind])]
      simp [decodeChain, hc, htry]
    simp only [decode_indic_text, this]

/-- Witness for claim C5: the bytes `C2 80 C2 80 41` (the UTF-8 encoding
of two `U+0080` controls and `A`) decode under UTF-8 — first in the
fallback order — with printable ratio `1/3`, which is rejected; UTF-16
and UTF-32 fail on the odd length; ISO-8859-1 yields ratio `3/5`, also
rejected; cp1252 yields all-printable `Â€Â€A`, which is accepted and
returned, and differs from the rejected UTF-8 candidate. -/
theorem tryEncodings_ratio_rules_witness :
    decode_indic_text chardetNone
        (.str [Char.ofNat 0x80, Char.ofNat 0x80, 'A']) =
      .ok ['Â', '€', 'Â', '€', 'A'] ∧
    (['Â', '€', 'Â', '€', 'A'] : List Char) ≠
      [Char.ofNat 0x80, Char.ofNat 0x80, 'A'] :=
  ⟨tryEncodings_ratio_rules.2.2.2 chardetNone _ _ (by decide) (by decide)
      (by decide),
   by decide⟩

end Blog
